import Mathlib

/-!
Verification of the chess game-state encoding pipeline of
`data_collection/data_collector.py`.

The pipeline parses a game's move list into successive board states taken
on the user's turns, normalizes the perspective (mirroring the board when
the user plays black), converts each position to a signed 8x8 integer
matrix, diffs consecutive matrices to find the square a user piece vacated,
and encodes positions as 12x8x8 binary tensors.

The shallow embedding below models `chess.Board` objects as functions from
the 64 squares to optional pieces, and models the python-chess operations
the source calls (`Board.mirror`, `Board.piece_at`, move application via
`Board.push`) by their documented semantics.  All functions of the source
are translated directly; integer arithmetic is exact (`Int`), and the
square numbering follows python-chess (square = rank * 8 + file).
-/

/-- Piece color, as python-chess `chess.WHITE` / `chess.BLACK`. -/
inductive Color where
  | white
  | black
deriving DecidableEq

/-- Piece kind, as python-chess `chess.PAWN` .. `chess.KING`. -/
inductive PieceKind where
  | pawn
  | knight
  | bishop
  | rook
  | queen
  | king
deriving DecidableEq

/-- A `chess.Board`: each of the 64 squares holds an optional piece.
Square numbering is the python-chess one: square = rank * 8 + file. -/
abbrev ChessBoard := Fin 64 → Option (Color × PieceKind)

/-- An 8x8 signed integer matrix, the output grid of
`get_matrix_game_states` (`matrix[i][j]`). -/
abbrev Grid8 := Fin 8 → Fin 8 → Int

/-- The 12x8x8 channel-major tensor produced by `board_to_8x8x12`. -/
abbrev Tensor12 := Fin 12 → Fin 8 → Fin 8 → Int

/-- `piece_to_int` (lines 150-176): integer code of a piece kind,
pawn = 1 .. king = 6. -/
def piece_to_int : PieceKind → Int
  | PieceKind.pawn => 1
  | PieceKind.knight => 2
  | PieceKind.bishop => 3
  | PieceKind.rook => 4
  | PieceKind.queen => 5
  | PieceKind.king => 6

/-- Swap the color of a piece (part of python-chess `Board.mirror`). -/
def swapColor : Color × PieceKind → Color × PieceKind
  | (Color.white, k) => (Color.black, k)
  | (Color.black, k) => (Color.white, k)

/-- Vertical flip of a square: keep the file, reverse the rank
(python-chess `flip_vertical`, used by `Board.mirror`). -/
def mirrorSquare (s : Fin 64) : Fin 64 :=
  ⟨(7 - s.val / 8) * 8 + s.val % 8, by omega⟩

/-- python-chess `Board.mirror()`: the board is mirrored vertically
(ranks reversed, files kept) and piece colors are swapped.  Called at
line 130 of `pgn_to_boards` when the user plays black. -/
def ChessBoard.mirror (b : ChessBoard) : ChessBoard :=
  fun s => (b (mirrorSquare s)).map swapColor

/-- `get_user_color` (lines 81-99): the user is white exactly when the
PGN's `White` header equals the configured username; otherwise black. -/
def get_user_color (whiteName username : String) : Color :=
  if whiteName = username then Color.white else Color.black

/-- The snapshot taken inside the loop of `pgn_to_boards` (lines 126-130):
the board itself for a white user, the mirrored board for a black user. -/
def viewBoard (uc : Color) (b : ChessBoard) : ChessBoard :=
  if uc = Color.white then b else ChessBoard.mirror b

/-- The move loop of `pgn_to_boards` (lines 125-131): walk the move list
with a counter `k`; when `k % 2` equals the user's starting-move parity,
record the (possibly mirrored) board before pushing the move.  `push`
is the external move oracle (`chess.Board.push`). -/
def pgnLoop {M : Type} (push : ChessBoard → M → ChessBoard) (uc : Color)
    (usm : Nat) : ChessBoard → Nat → List M → List ChessBoard
  | _, _, [] => []
  | board, k, m :: ms =>
      (if k % 2 = usm then [viewBoard uc board] else []) ++
        pgnLoop push uc usm (push board m) (k + 1) ms

/-- `pgn_to_boards` (lines 101-133): derive the user color from the game
record, set the user's starting-move parity (0 for white, 1 for black),
and run the move loop from the game's starting board. -/
def pgn_to_boards {M : Type} (push : ChessBoard → M → ChessBoard)
    (whiteName username : String) (start : ChessBoard) (moves : List M) :
    List ChessBoard :=
  pgnLoop push (get_user_color whiteName username)
    (if get_user_color whiteName username = Color.white then 0 else 1)
    start 0 moves

/-- The matrix extraction of `get_matrix_game_states` (lines 192-201):
`matrix[7 - row][col]` holds the piece value at square `row * 8 + col`,
negated for black pieces (so the white player's pieces are positive;
for a black user the board was already mirrored and color-swapped). -/
def boardMatrix (b : ChessBoard) : Grid8 := fun i j =>
  match b ⟨(7 - i.val) * 8 + j.val, by omega⟩ with
  | none => 0
  | some (c, k) =>
      if c = Color.black then -piece_to_int k else piece_to_int k

/-- `get_matrix_game_states` (lines 178-205) on already-collected boards:
one signed matrix per board, per game. -/
def get_matrix_game_states (allGames : List (List ChessBoard)) :
    List (List Grid8) :=
  allGames.map (fun g => g.map boardMatrix)

/-- Row-major flattening of an 8x8 matrix (`np.ndarray.flatten` inside
`find_moved_piece`). -/
def flattenGrid (g : Grid8) : Fin 64 → Int :=
  fun s => g ⟨s.val / 8, by omega⟩ ⟨s.val % 8, by omega⟩

/-- `find_moved_piece` (lines 207-237): scan all 64 flattened squares in
order; whenever the two states differ at the square and the first state's
value is strictly positive, overwrite the candidate with that square and
value; return the final candidate, or none if no square qualified. -/
def find_moved_piece (b1 b2 : Grid8) : Option (Fin 64 × Int) :=
  (List.finRange 64).foldl
    (fun acc sq =>
      if flattenGrid b1 sq ≠ flattenGrid b2 sq ∧ 0 < flattenGrid b1 sq then
        some (sq, flattenGrid b1 sq)
      else acc)
    none

/-- The (8,8,12) array built by the loop of `board_to_8x8x12`
(lines 254-269): empty cells keep all channels 0; a positive value `v`
sets channel `v - 1`; a negative value sets channel `|v| - 1 + 6`. -/
def board12pre (g : Grid8) : Fin 8 → Fin 8 → Fin 12 → Int := fun i j c =>
  if g i j = 0 then 0
  else
    if (if 0 < g i j then g i j - 1 else ((g i j).natAbs : Int) - 1 + 6) =
        (c.val : Int) then 1
    else 0

/-- `board_to_8x8x12` (lines 240-273): build the (8,8,12) binary array and
transpose it to channel-major (12,8,8) order. -/
def board_to_8x8x12 (g : Grid8) : Tensor12 := fun c i j => board12pre g i j c

/-- Rank/row reversal on an index, `7 - i`. -/
def finFlip (i : Fin 8) : Fin 8 := ⟨7 - i.val, by omega⟩

/-- An entry of the fetched `pgn` column: either a PGN string or a
non-string value (the Chess.com API sometimes yields None or a float,
see line 145). -/
inductive PgnEntry where
  | str (s : String)
  | nonStr

/-- A parsed game as returned by the oracle `chess.pgn.read_game`: the
`White` header, the starting board (`game.board()`) and the main-line
move list (`game.mainline_moves()`). -/
structure Game (M : Type) where
  white : String
  start : ChessBoard
  moves : List M

/-- `pgn_to_boards` on a raw PGN string, with the parsing oracle made
explicit: `readGame` returns `none` when the PGN cannot be parsed into a
game (in the source this surfaces as an uncaught exception when the
`None` returned by `chess.pgn.read_game` is dereferenced at
`game.board()`, line 119). -/
def pgn_to_boardsE {M : Type} (push : ChessBoard → M → ChessBoard)
    (readGame : String → Option (Game M)) (username : String)
    (p : String) : Option (List ChessBoard) :=
  (readGame p).map
    (fun g => pgn_to_boards push g.white username g.start g.moves)

/-- `get_boards` (lines 135-148): skip entries whose PGN is not a string;
for string entries call `pgn_to_boards`, whose oracle failure is NOT
caught and therefore propagates (`none`) and aborts the whole batch. -/
def get_boards {M : Type} (push : ChessBoard → M → ChessBoard)
    (readGame : String → Option (Game M)) (username : String) :
    List PgnEntry → Option (List (List ChessBoard))
  | [] => some []
  | PgnEntry.nonStr :: rest => get_boards push readGame username rest
  | PgnEntry.str s :: rest =>
      match pgn_to_boardsE push readGame username s with
      | none => none
      | some bs =>
          match get_boards push readGame username rest with
          | none => none
          | some more => some (bs :: more)

/-- The per-game inner loop of `get_data` (lines 281-293): for each
adjacent pair of game states (the loop breaks before pairing the final
state), run `find_moved_piece`; the `TypeError` raised by unpacking a
`None` result is caught and the pair is skipped, otherwise the pair
`(board_to_8x8x12(earlier state), moved square)` is appended. -/
def examplesOfGame : List Grid8 → List (Tensor12 × Fin 64)
  | [] => []
  | [_] => []
  | a :: b :: rest =>
      (match find_moved_piece a b with
        | none => []
        | some r => [(board_to_8x8x12 a, r.1)]) ++ examplesOfGame (b :: rest)

/-- `get_data` (lines 276-294) on already-computed matrix game states:
the examples of every game, concatenated in game order. -/
def get_data (gs : List (List Grid8)) : List (Tensor12 × Fin 64) :=
  (gs.map examplesOfGame).flatten

/-- The empty board (used only to instantiate theorems). -/
def emptyBoard : ChessBoard := fun _ => none

/-- The set of candidate moved-from squares of `find_moved_piece`:
squares where the two states differ and the first state is positive. -/
def movedCandidates (b1 b2 : Grid8) : Finset (Fin 64) :=
  Finset.univ.filter
    (fun s => flattenGrid b1 s ≠ flattenGrid b2 s ∧ 0 < flattenGrid b1 s)

/-- Standard chess back rank, file by file: R N B Q K B N R. -/
def backRank (f : Nat) : PieceKind :=
  match f with
  | 0 => PieceKind.rook
  | 1 => PieceKind.knight
  | 2 => PieceKind.bishop
  | 3 => PieceKind.queen
  | 4 => PieceKind.king
  | 5 => PieceKind.bishop
  | 6 => PieceKind.knight
  | _ => PieceKind.rook

/-- The standard chess starting position (`game.board()` on a PGN with no
FEN header). -/
def initialBoard : ChessBoard := fun s =>
  if s.val / 8 = 0 then some (Color.white, backRank (s.val % 8))
  else if s.val / 8 = 1 then some (Color.white, PieceKind.pawn)
  else if s.val / 8 = 6 then some (Color.black, PieceKind.pawn)
  else if s.val / 8 = 7 then some (Color.black, backRank (s.val % 8))
  else none

/-- Concrete move application used to instantiate the external oracle on
the simple (non-capturing, non-castling) moves of the e4 e5 Nf3 Nc6
scenario: the piece on the source square moves to the target square. -/
def makeMove (b : ChessBoard) (m : Fin 64 × Fin 64) : ChessBoard := fun s =>
  if s = m.2 then b m.1 else if s = m.1 then none else b s

/-- The moves e4, e5, Nf3, Nc6 as (source, target) square pairs in
python-chess numbering: e2-e4 = 12-28, e7-e5 = 52-36, g1-f3 = 6-21,
b8-c6 = 57-42. -/
def c6moves : List (Fin 64 × Fin 64) := [(12, 28), (52, 36), (6, 21), (57, 42)]

/-- A raw board holding a single white king on a1, used to refute the
180-degree-rotation reading of the canonicalization. -/
def oneKingBoard : ChessBoard := fun s =>
  if s.val = 0 then some (Color.white, PieceKind.king) else none

/-- An always-failing parse oracle: every PGN string is unparseable. -/
def failOracle : String → Option (Game Unit) := fun _ => none

/-- A trivial move oracle that leaves the board unchanged, used only to
instantiate theorems. -/
def idPush : ChessBoard → Unit → ChessBoard := fun b _ => b

/-- The all-zero grid (an empty position), used only to instantiate
theorems. -/
def zeroGrid : Grid8 := fun _ _ => 0

/-! ## Helper lemmas -/

lemma mirrorSquare_mirrorSquare (s : Fin 64) :
    mirrorSquare (mirrorSquare s) = s := by
  have h := s.isLt
  apply Fin.ext
  show (7 - ((7 - s.val / 8) * 8 + s.val % 8) / 8) * 8 +
      ((7 - s.val / 8) * 8 + s.val % 8) % 8 = s.val
  omega

lemma swapColor_swapColor (p : Color × PieceKind) :
    swapColor (swapColor p) = p := by
  rcases p with ⟨c, k⟩
  cases c <;> rfl

/-! ## Claims C2 and C3: the SECOND_MOVER canonicalization -/

/-- Claim C3: the SECOND_MOVER canonicalization (the `board.mirror()`
call at line 130) is an involution: applying it twice yields the
original raw board. -/
theorem mirror_involution (b : ChessBoard) :
    ChessBoard.mirror (ChessBoard.mirror b) = b := by
  funext s
  show ((b (mirrorSquare (mirrorSquare s))).map swapColor).map swapColor =
    b s
  rw [mirrorSquare_mirrorSquare]
  cases h : b s with
  | none => rfl
  | some p => simp [swapColor_swapColor]

/-- Claim C2 (corrected), supporting computation: the matrix of a
mirrored board is the vertical flip (rows reversed, columns kept) of the
negated matrix of the raw board. -/
lemma boardMatrix_mirror (b : ChessBoard) (i j : Fin 8) :
    boardMatrix (ChessBoard.mirror b) i j = -boardMatrix b (finFlip i) j := by
  have hi := i.isLt
  have hj := j.isLt
  show (match (b (mirrorSquare ⟨(7 - i.val) * 8 + j.val, by omega⟩)).map
        swapColor with
      | none => (0 : Int)
      | some (c, k) =>
          if c = Color.black then -piece_to_int k else piece_to_int k) =
    -(match b ⟨(7 - (7 - i.val)) * 8 + j.val, by omega⟩ with
      | none => (0 : Int)
      | some (c, k) =>
          if c = Color.black then -piece_to_int k else piece_to_int k)
  have hsq : mirrorSquare ⟨(7 - i.val) * 8 + j.val, by omega⟩ =
      ⟨(7 - (7 - i.val)) * 8 + j.val, by omega⟩ := by
    apply Fin.ext
    show (7 - ((7 - i.val) * 8 + j.val) / 8) * 8 +
        ((7 - i.val) * 8 + j.val) % 8 = (7 - (7 - i.val)) * 8 + j.val
    omega
  rw [hsq]
  cases hb : b ⟨(7 - (7 - i.val)) * 8 + j.val, by omega⟩ with
  | none => simp
  | some p =>
      rcases p with ⟨c, k⟩
      cases c <;> simp [swapColor]

/-- Claim C2, counterexample: the SECOND_MOVER canonicalization is NOT a
180-degree rotation.  On a raw board holding a single white king on a1,
the claim predicts the canonical grid to be the user-signed raw grid with
both rows and columns reversed; the pipeline (mirror, then matrix
extraction) reverses rows only, so the two grids differ (the pipeline
puts the king in column 0, the 180-degree rotation in column 7). -/
theorem mirror_not_rot180_counterexample :
    ¬ (∀ i j : Fin 8, boardMatrix (ChessBoard.mirror oneKingBoard) i j =
        -boardMatrix oneKingBoard (finFlip i) (finFlip j)) := by
  decide

/-- Claim C2 (corrected): when the user's Side is FIRST_MOVER the grid is
the raw (white-positive) matrix unchanged; when SECOND_MOVER the canonical
grid produced by the pipeline is the vertical mirror of the raw grid —
the occupant of raw cell `(row, col)` appears at canonical cell
`(7 - row, col)`, the column unchanged — with the values negated exactly
as the user-owned-positive sign convention requires (here `boardMatrix b`
is white-positive, so `-boardMatrix b` is the raw grid signed from the
second mover's perspective). -/
theorem canonicalization_spec (b : ChessBoard) :
    viewBoard Color.white b = b ∧
    (∀ i j : Fin 8, boardMatrix (viewBoard Color.black b) i j =
      -boardMatrix b (finFlip i) j) :=
  ⟨rfl, fun i j => boardMatrix_mirror b i j⟩

/-- A fold that overwrites its accumulator only on squares satisfying `P`
keeps its initial value when no element of the list satisfies `P`. -/
lemma foldl_keep {α β : Type} (P : α → Prop) [DecidablePred P] (f : α → β) :
    ∀ (l : List α) (init : Option β), (∀ x ∈ l, ¬ P x) →
      l.foldl (fun acc x => if P x then some (f x) else acc) init = init
  | [], _, _ => rfl
  | x :: xs, init, h => by
      rw [List.foldl_cons, if_neg (h x (List.mem_cons_self x xs))]
      exact foldl_keep P f xs init (fun y hy => h y (List.mem_cons_of_mem x hy))

/-- `find_moved_piece` returns the greatest candidate square (the last one
in scan order) together with the first state's value there, and `none`
when no square qualifies. -/
lemma find_moved_piece_eq (b1 b2 : Grid8) :
    find_moved_piece b1 b2 =
      if h : (movedCandidates b1 b2).Nonempty then
        some ((movedCandidates b1 b2).max' h,
          flattenGrid b1 ((movedCandidates b1 b2).max' h))
      else none := by
  by_cases h : (movedCandidates b1 b2).Nonempty
  · rw [dif_pos h]
    set s : Fin 64 := (movedCandidates b1 b2).max' h with hs
    have hsmem : s ∈ movedCandidates b1 b2 := Finset.max'_mem _ h
    have hsP : flattenGrid b1 s ≠ flattenGrid b2 s ∧ 0 < flattenGrid b1 s := by
      have := hsmem
      rw [movedCandidates, Finset.mem_filter] at this
      exact this.2
    have hlt : s.val < (List.finRange 64).length := by
      simp
    have hget : (List.finRange 64)[s.val] = s := by
      rw [List.getElem_finRange]
      apply Fin.ext
      rfl
    have hdecomp : List.finRange 64 =
        (List.finRange 64).take s.val ++
          s :: (List.finRange 64).drop (s.val + 1) := by
      conv_lhs => rw [← List.take_append_drop s.val (List.finRange 64)]
      rw [List.drop_eq_getElem_cons hlt, hget]
    have hafter : ∀ x ∈ (List.finRange 64).drop (s.val + 1),
        ¬ (flattenGrid b1 x ≠ flattenGrid b2 x ∧ 0 < flattenGrid b1 x) := by
      intro x hx hPx
      have hp : (List.finRange 64).Pairwise (· < ·) :=
        List.pairwise_lt_finRange 64
      rw [hdecomp] at hp
      have h2 := (List.pairwise_append.mp hp).2.1
      have hsx : s < x := (List.pairwise_cons.mp h2).1 x hx
      have hxmem : x ∈ movedCandidates b1 b2 := by
        rw [movedCandidates, Finset.mem_filter]
        exact ⟨Finset.mem_univ _, hPx⟩
      have hxle : x ≤ s := Finset.le_max' _ x hxmem
      exact absurd hxle (not_le.mpr hsx)
    show (List.finRange 64).foldl
        (fun acc sq =>
          if flattenGrid b1 sq ≠ flattenGrid b2 sq ∧ 0 < flattenGrid b1 sq
          then some (sq, flattenGrid b1 sq) else acc) none =
      some (s, flattenGrid b1 s)
    rw [hdecomp, List.foldl_append, List.foldl_cons, if_pos hsP]
    exact foldl_keep
      (fun sq => flattenGrid b1 sq ≠ flattenGrid b2 sq ∧
        0 < flattenGrid b1 sq)
      (fun sq => (sq, flattenGrid b1 sq)) _ _ hafter
  · rw [dif_neg h]
    apply foldl_keep
      (fun sq => flattenGrid b1 sq ≠ flattenGrid b2 sq ∧
        0 < flattenGrid b1 sq)
      (fun sq => (sq, flattenGrid b1 sq))
    intro x _ hPx
    exact h ⟨x, by
      rw [movedCandidates, Finset.mem_filter]
      exact ⟨Finset.mem_univ _, hPx⟩⟩

/-! ## Claim C4: the Move-Diff Labeler -/

/-- Claim C4: `find_moved_piece` returns a result iff some square of the
row-major linearization differs between the two states with the first
state's value strictly positive; the returned square is the LAST such
square in scan order (every other candidate square is at a smaller or
equal index), the returned value is the first state's value there, and on
two identical grids the result is `none`. -/
theorem find_moved_piece_spec (b1 b2 : Grid8) :
    (find_moved_piece b1 b2 = none ↔
      ∀ s : Fin 64,
        ¬ (flattenGrid b1 s ≠ flattenGrid b2 s ∧ 0 < flattenGrid b1 s)) ∧
    (∀ (s : Fin 64) (p : Int), find_moved_piece b1 b2 = some (s, p) →
      (flattenGrid b1 s ≠ flattenGrid b2 s ∧ 0 < flattenGrid b1 s) ∧
        p = flattenGrid b1 s ∧
        ∀ t : Fin 64,
          (flattenGrid b1 t ≠ flattenGrid b2 t ∧ 0 < flattenGrid b1 t) →
            t ≤ s) ∧
    ((∃ s : Fin 64,
        flattenGrid b1 s ≠ flattenGrid b2 s ∧ 0 < flattenGrid b1 s) →
      ∃ r, find_moved_piece b1 b2 = some r) ∧
    (b1 = b2 → find_moved_piece b1 b2 = none) := by
  have hmem : ∀ t : Fin 64, t ∈ movedCandidates b1 b2 ↔
      (flattenGrid b1 t ≠ flattenGrid b2 t ∧ 0 < flattenGrid b1 t) := by
    intro t
    rw [movedCandidates, Finset.mem_filter]
    simp
  refine ⟨?_, ?_, ?_, ?_⟩
  · rw [find_moved_piece_eq]
    by_cases h : (movedCandidates b1 b2).Nonempty
    · rw [dif_pos h]
      constructor
      · intro habs
        exact absurd habs (by simp)
      · intro hall
        rcases h with ⟨t, ht⟩
        exact absurd ((hmem t).mp ht) (hall t)
    · rw [dif_neg h]
      constructor
      · intro _ s hs
        exact h ⟨s, (hmem s).mpr hs⟩
      · intro _
        rfl
  · intro s p heq
    rw [find_moved_piece_eq] at heq
    by_cases h : (movedCandidates b1 b2).Nonempty
    · rw [dif_pos h] at heq
      have hs : (movedCandidates b1 b2).max' h = s ∧
          flattenGrid b1 ((movedCandidates b1 b2).max' h) = p := by
        have := Option.some.inj heq
        exact ⟨congrArg Prod.fst this, congrArg Prod.snd this⟩
      rcases hs with ⟨hs1, hs2⟩
      refine ⟨(hmem s).mp (hs1 ▸ Finset.max'_mem _ h), ?_, ?_⟩
      · rw [← hs2, hs1]
      · intro t ht
        rw [← hs1]
        exact Finset.le_max' _ t ((hmem t).mpr ht)
    · rw [dif_neg h] at heq
      exact absurd heq (by simp)
  · intro hex
    rcases hex with ⟨s, hs⟩
    have h : (movedCandidates b1 b2).Nonempty := ⟨s, (hmem s).mpr hs⟩
    rw [find_moved_piece_eq, dif_pos h]
    exact ⟨_, rfl⟩
  · intro hbb
    subst hbb
    rw [find_moved_piece_eq, dif_neg]
    intro hne
    rcases hne with ⟨s, hs⟩
    exact absurd ((hmem s).mp hs).1 (by simp)

/-- Claim C4, witness: on two identical concrete grids the labeler
returns no result. -/
theorem find_moved_piece_spec_witness :
    find_moved_piece zeroGrid zeroGrid = none :=
  (find_moved_piece_spec zeroGrid zeroGrid).2.2.2 rfl

/-! ## Claims C5 and C10: the Game Replayer and side determination -/

/-- The move loop of `pgn_to_boards` snapshots exactly the (possibly
mirrored) states before the moves whose counter matches the user's
parity, in game order. -/
lemma pgnLoop_eq {M : Type} (push : ChessBoard → M → ChessBoard)
    (uc : Color) (usm : Nat) (ms : List M) : ∀ (b : ChessBoard) (k : Nat),
    pgnLoop push uc usm b k ms =
      ((List.range ms.length).filter
          (fun i => decide ((k + i) % 2 = usm))).map
        (fun i => viewBoard uc (List.foldl push b (ms.take i))) := by
  induction ms with
  | nil => intro b k; rfl
  | cons m ms ih =>
      intro b k
      simp only [pgnLoop, ih (push b m) (k + 1), List.length_cons,
        List.range_succ_eq_map, List.filter_cons, List.filter_map,
        List.map_map]
      have hpred : ∀ i ∈ List.range ms.length,
          (decide ((k + 1 + i) % 2 = usm)) =
            ((fun i => decide ((k + i) % 2 = usm)) ∘ Nat.succ) i := by
        intro i _
        show decide ((k + 1 + i) % 2 = usm) = decide ((k + (i + 1)) % 2 = usm)
        rw [show k + 1 + i = k + (i + 1) from by omega]
      rw [List.filter_congr hpred]
      by_cases hk : k % 2 = usm
      · rw [if_pos hk, if_pos (by simpa using hk), List.map_cons,
          List.map_map]
        rfl
      · rw [if_neg hk, if_neg (by simpa using hk), List.map_map]
        rfl

/-- Claim C5: `pgn_to_boards` snapshots the position immediately before
each move whose 0-indexed counter matches the user's parity (even for
white / FIRST_MOVER, odd for black / SECOND_MOVER), one Position per
matching counter value, in game order; a zero-move game yields an empty
sequence, and a 7-move game of a FIRST_MOVER user yields 4 Positions. -/
theorem pgn_to_boards_spec {M : Type} (push : ChessBoard → M → ChessBoard)
    (w u : String) (start : ChessBoard) (moves : List M) :
    pgn_to_boards push w u start moves =
      ((List.range moves.length).filter
          (fun i => decide (i % 2 =
            (if get_user_color w u = Color.white then 0 else 1)))).map
        (fun i => viewBoard (get_user_color w u)
          (List.foldl push start (moves.take i))) ∧
    (moves = [] → pgn_to_boards push w u start moves = []) ∧
    (moves.length = 7 → get_user_color w u = Color.white →
      (pgn_to_boards push w u start moves).length = 4) := by
  have hmain : pgn_to_boards push w u start moves =
      ((List.range moves.length).filter
          (fun i => decide (i % 2 =
            (if get_user_color w u = Color.white then 0 else 1)))).map
        (fun i => viewBoard (get_user_color w u)
          (List.foldl push start (moves.take i))) := by
    rw [pgn_to_boards, pgnLoop_eq]
    simp only [Nat.zero_add]
  refine ⟨hmain, ?_, ?_⟩
  · intro hnil
    subst hnil
    rfl
  · intro hlen huc
    rw [hmain, List.length_map, huc, hlen]
    decide

/-- Claim C5, witness: seven moves of a trivial oracle for a white user
give four recorded positions. -/
theorem pgn_to_boards_spec_witness :
    (pgn_to_boards idPush "a" "a" emptyBoard (List.replicate 7 ())).length
      = 4 :=
  (pgn_to_boards_spec idPush "a" "a" emptyBoard (List.replicate 7 ())).2.2
    rfl (by decide)

/-- Claim C10: side determination inspects only the `White` header:
the user is FIRST_MOVER (white) exactly when that header equals the
configured username and SECOND_MOVER (black) in every other case; in
particular a game record matching neither side is still replayed — from
the second mover's mirrored perspective — rather than skipped. -/
theorem get_user_color_spec {M : Type} (push : ChessBoard → M → ChessBoard)
    (w u : String) (start : ChessBoard) (moves : List M) :
    (get_user_color w u = Color.white ↔ w = u) ∧
    (get_user_color w u = Color.black ↔ ¬ w = u) ∧
    (¬ w = u →
      pgn_to_boards push w u start moves =
        ((List.range moves.length).filter
            (fun i => decide (i % 2 = 1))).map
          (fun i => ChessBoard.mirror (List.foldl push start
            (moves.take i)))) := by
  refine ⟨?_, ?_, ?_⟩
  · rw [get_user_color]
    by_cases h : w = u
    · simp [h]
    · simp [h]
  · rw [get_user_color]
    by_cases h : w = u
    · simp [h]
    · simp [h]
  · intro hne
    have huc : get_user_color w u = Color.black := by
      rw [get_user_color, if_neg hne]
    rw [pgn_to_boards, huc]
    rw [pgnLoop_eq]
    simp only [Nat.zero_add]
    rfl

/-- Claim C10, witness: with a username matching neither header, a
two-move game is replayed from the mirrored (second mover) perspective. -/
theorem get_user_color_spec_witness :
    get_user_color "a" "b" = Color.black ∧
    pgn_to_boards idPush "a" "b" emptyBoard [(), ()] =
      [ChessBoard.mirror emptyBoard] := by
  have h := get_user_color_spec idPush "a" "b" emptyBoard [(), ()]
  exact ⟨h.2.1.mpr (by decide), (h.2.2 (by decide)).trans rfl⟩

/-! ## Claim C1: the Tensor Encoder -/

/-- A tensor entry is 1 exactly when the cell is occupied and the
channel computed by the source's channel rule matches. -/
lemma board12_one_iff (g : Grid8) (r c : Fin 8) (ch : Fin 12) :
    board_to_8x8x12 g ch r c = 1 ↔
      (g r c ≠ 0 ∧
        (if 0 < g r c then g r c - 1 else ((g r c).natAbs : Int) - 1 + 6) =
          (ch.val : Int)) := by
  show board12pre g r c ch = 1 ↔ _
  rw [board12pre]
  by_cases h0 : g r c = 0
  · rw [if_pos h0]
    simp [h0]
  · rw [if_neg h0]
    by_cases hc : (if 0 < g r c then g r c - 1
        else ((g r c).natAbs : Int) - 1 + 6) = (ch.val : Int)
    · rw [if_pos hc]
      exact ⟨fun _ => ⟨h0, hc⟩, fun _ => rfl⟩
    · rw [if_neg hc]
      constructor
      · intro h
        exact absurd h (by omega)
      · intro h
        exact absurd h.2 hc

/-- Claim C1: on any grid with entries in [-6, 6], `board_to_8x8x12`
produces a binary channel-major tensor in which, at each cell, an empty
cell (value 0) sets no channel, a positive value `v` sets exactly channel
`v - 1`, and a negative value `v` sets exactly channel `|v| - 1 + 6`;
occupied cells set exactly one of the 12 channels. -/
theorem board_to_8x8x12_spec (g : Grid8)
    (hg : ∀ i j : Fin 8, -6 ≤ g i j ∧ g i j ≤ 6) (r c : Fin 8) :
    (∀ ch : Fin 12,
      board_to_8x8x12 g ch r c = 0 ∨ board_to_8x8x12 g ch r c = 1) ∧
    (g r c = 0 → ∀ ch : Fin 12, board_to_8x8x12 g ch r c = 0) ∧
    (0 < g r c → ∀ ch : Fin 12,
      (board_to_8x8x12 g ch r c = 1 ↔ (ch.val : Int) = g r c - 1)) ∧
    (g r c < 0 → ∀ ch : Fin 12,
      (board_to_8x8x12 g ch r c = 1 ↔
        (ch.val : Int) = -(g r c) - 1 + 6)) ∧
    (g r c ≠ 0 → ∃! ch : Fin 12, board_to_8x8x12 g ch r c = 1) := by
  have hrange := hg r c
  refine ⟨?_, ?_, ?_, ?_, ?_⟩
  · intro ch
    show board12pre g r c ch = 0 ∨ board12pre g r c ch = 1
    rw [board12pre]
    split_ifs <;> simp
  · intro h0 ch
    show board12pre g r c ch = 0
    rw [board12pre, if_pos h0]
  · intro hpos ch
    rw [board12_one_iff]
    have habs : (if 0 < g r c then g r c - 1
        else ((g r c).natAbs : Int) - 1 + 6) = g r c - 1 := if_pos hpos
    rw [habs]
    constructor
    · intro h
      omega
    · intro h
      omega
  · intro hneg ch
    rw [board12_one_iff]
    have habs : (if 0 < g r c then g r c - 1
        else ((g r c).natAbs : Int) - 1 + 6) =
          ((g r c).natAbs : Int) - 1 + 6 := if_neg (by omega)
    rw [habs]
    constructor
    · intro h
      omega
    · intro h
      omega
  · intro hne
    by_cases hpos : 0 < g r c
    · refine ⟨⟨(g r c - 1).toNat, by omega⟩, ?_, ?_⟩
      · show board_to_8x8x12 g ⟨(g r c - 1).toNat, by omega⟩ r c = 1
        rw [board12_one_iff]
        refine ⟨hne, ?_⟩
        rw [if_pos hpos]
        show g r c - 1 = ((g r c - 1).toNat : Int)
        omega
      · intro ch hch
        rw [board12_one_iff] at hch
        rcases hch with ⟨-, hch⟩
        rw [if_pos hpos] at hch
        apply Fin.ext
        show ch.val = (g r c - 1).toNat
        omega
    · have hneg : g r c < 0 := by omega
      refine ⟨⟨((g r c).natAbs - 1 + 6 : Nat), by omega⟩, ?_, ?_⟩
      · show board_to_8x8x12 g ⟨((g r c).natAbs - 1 + 6 : Nat), by omega⟩
          r c = 1
        rw [board12_one_iff]
        refine ⟨hne, ?_⟩
        rw [if_neg hpos]
        show ((g r c).natAbs : Int) - 1 + 6 =
          (((g r c).natAbs - 1 + 6 : Nat) : Int)
        omega
      · intro ch hch
        rw [board12_one_iff] at hch
        rcases hch with ⟨-, hch⟩
        rw [if_neg hpos] at hch
        apply Fin.ext
        show ch.val = (g r c).natAbs - 1 + 6
        omega

/-- Claim C1, witness: on the all-bishop grid (value 3 everywhere) the
tensor sets channel 2 at the origin cell. -/
theorem board_to_8x8x12_spec_witness :
    board_to_8x8x12 (fun _ _ => (3 : Int)) 2 0 0 = 1 :=
  ((board_to_8x8x12_spec (fun _ _ => (3 : Int)) (by decide) 0 0).2.2.1
    (by decide) 2).mpr (by decide)

/-! ## Claim C9: the Dataset Assembler skip policy -/

/-- The per-game example loop processes exactly the adjacent pairs of the
game's state list, keeping a pair only when the labeler finds a moved
piece, and pairing the label with the tensor of the earlier state. -/
lemma examplesOfGame_eq : ∀ g : List Grid8,
    examplesOfGame g = (g.zip g.tail).filterMap
      (fun p => (find_moved_piece p.1 p.2).map
        (fun r => (board_to_8x8x12 p.1, r.1)))
  | [] => rfl
  | [_] => rfl
  | a :: b :: rest => by
      rw [examplesOfGame, examplesOfGame_eq (b :: rest)]
      show _ = ((a, b) :: (b :: rest).zip rest).filterMap _
      rw [List.filterMap_cons]
      cases h : find_moved_piece a b with
      | none => simp [h]
      | some r => simp [h]

/-- Claim C9: a user-turn pair on which the labeler returns no result
produces no Example and no error, and processing continues with the
following pairs and games; each game contributes at most one Example per
adjacent pair, never more than (number of Positions - 1), and the final
Position of a game never yields an Example (examples come only from
pairs, whose earlier member it can never be). -/
theorem get_data_spec :
    (∀ pre g post, get_data (pre ++ g :: post) =
      get_data pre ++ examplesOfGame g ++ get_data post) ∧
    (∀ g : List Grid8, examplesOfGame g = (g.zip g.tail).filterMap
      (fun p => (find_moved_piece p.1 p.2).map
        (fun r => (board_to_8x8x12 p.1, r.1)))) ∧
    (∀ (a b : Grid8) (rest : List Grid8), find_moved_piece a b = none →
      examplesOfGame (a :: b :: rest) = examplesOfGame (b :: rest)) ∧
    (∀ g : List Grid8, (examplesOfGame g).length ≤ g.length - 1) := by
  refine ⟨?_, examplesOfGame_eq, ?_, ?_⟩
  · intro pre g post
    rw [get_data, get_data, get_data]
    rw [List.map_append, List.map_cons, List.flatten_append,
      List.flatten_cons, List.append_assoc]
  · intro a b rest h
    rw [examplesOfGame, h]
    rfl
  · intro g
    rw [examplesOfGame_eq]
    calc ((g.zip g.tail).filterMap
          (fun p => (find_moved_piece p.1 p.2).map
            (fun r => (board_to_8x8x12 p.1, r.1)))).length
        ≤ (g.zip g.tail).length := List.length_filterMap_le _ _
      _ ≤ g.tail.length := by
          rw [List.length_zip]
          exact min_le_right _ _
      _ = g.length - 1 := List.length_tail g

/-- Claim C9, witness: two identical empty positions form a pair with no
detected displacement and therefore yield no Example. -/
theorem get_data_spec_witness :
    examplesOfGame [zeroGrid, zeroGrid] = [] := by
  have h := get_data_spec.2.2.1 zeroGrid zeroGrid [] (by decide)
  exact h.trans rfl

/-! ## Claims C7 and C8: batch-level error handling in `get_boards` -/

/-- Claim C7, counterexample: `get_boards` contains no handler for oracle
parse failures, so a batch holding one unparseable (string) record yields
a failure of the whole build (`none`), not a skip: if the failing game
were skipped as the claim states, the singleton batch would produce
`some []` like the empty batch does. -/
theorem get_boards_failure_counterexample :
    get_boards idPush failOracle "u" [PgnEntry.str "bad"] = none ∧
    get_boards idPush failOracle "u" [] = some [] :=
  ⟨rfl, rfl⟩

/-- Claim C7 (corrected): an oracle parse failure on a string record is
not caught anywhere in `get_boards`: whenever any string entry of the
batch fails to parse, the whole dataset build fails (`none`) instead of
skipping that game and completing the rest.  (Only non-string entries
are skipped, see the C8 theorem.) -/
theorem get_boards_oracle_failure_propagates {M : Type}
    (push : ChessBoard → M → ChessBoard)
    (readGame : String → Option (Game M)) (u : String) :
    ∀ (pgns : List PgnEntry) (s : String), readGame s = none →
      PgnEntry.str s ∈ pgns → get_boards push readGame u pgns = none := by
  intro pgns
  induction pgns with
  | nil =>
      intro s _ hmem
      exact absurd hmem (List.not_mem_nil _)
  | cons e rest ih =>
      intro s hfail hmem
      cases e with
      | nonStr =>
          have hmem' : PgnEntry.str s ∈ rest := by
            rcases List.mem_cons.mp hmem with h | h
            · exact absurd h (by simp)
            · exact h
          rw [get_boards]
          exact ih s hfail hmem'
      | str t =>
          rw [get_boards]
          by_cases hts : t = s
          · subst hts
            rw [show pgn_to_boardsE push readGame u t = none from by
              rw [pgn_to_boardsE, hfail]
              rfl]
          · have hmem' : PgnEntry.str s ∈ rest := by
              rcases List.mem_cons.mp hmem with h | h
              · exact absurd (PgnEntry.str.inj h.symm) hts
              · exact h
            rw [ih s hfail hmem']
            cases pgn_to_boardsE push readGame u t <;> rfl

/-- Claim C7, witness for the corrected statement: a concrete batch with
one unparseable record makes the whole build fail. -/
theorem get_boards_oracle_failure_witness :
    get_boards idPush failOracle "u" [PgnEntry.str "x"] = none :=
  get_boards_oracle_failure_propagates idPush failOracle "u"
    [PgnEntry.str "x"] "x" rfl (List.mem_singleton.mpr rfl)

/-- Claim C8: a record whose move text is not a string is skipped before
replay: it contributes nothing to the output, raises nothing, and every
other record of the batch is processed exactly as if the non-string entry
were absent; in particular a batch of only a non-string entry succeeds
with an empty result. -/
theorem get_boards_nonstring_skip {M : Type}
    (push : ChessBoard → M → ChessBoard)
    (readGame : String → Option (Game M)) (u : String) :
    (∀ xs ys, get_boards push readGame u (xs ++ PgnEntry.nonStr :: ys) =
      get_boards push readGame u (xs ++ ys)) ∧
    get_boards push readGame u [PgnEntry.nonStr] = some [] := by
  constructor
  · intro xs
    induction xs with
    | nil =>
        intro ys
        rw [List.nil_append, List.nil_append, get_boards]
    | cons e rest ih =>
        intro ys
        cases e with
        | nonStr =>
            rw [List.cons_append, get_boards, ih ys, List.cons_append,
              get_boards]
        | str t =>
            rw [List.cons_append, get_boards, List.cons_append, get_boards,
              ih ys]
  · rfl

/-! ## Claim C6: end-to-end scenario e4 e5 Nf3 Nc6 -/

/-- Claim C6: on the game e4 e5 Nf3 Nc6 with the user as FIRST_MOVER
(the `White` header equals the username), the pipeline records exactly 2
Positions — the starting position and the position after e4 and e5 — and
emits exactly 1 Example pairing the tensor of the starting Position with
label 52, the row-major index of square e2 under the `matrix[7 - rank]`
origin convention, the moved piece being a pawn (value 1). -/
theorem end_to_end_spec :
    pgn_to_boards makeMove "user" "user" initialBoard c6moves =
      [initialBoard, makeMove (makeMove initialBoard (12, 28)) (52, 36)] ∧
    (pgn_to_boards makeMove "user" "user" initialBoard c6moves).length
      = 2 ∧
    find_moved_piece (boardMatrix initialBoard)
        (boardMatrix (makeMove (makeMove initialBoard (12, 28)) (52, 36)))
      = some (52, 1) ∧
    get_data (get_matrix_game_states
        [pgn_to_boards makeMove "user" "user" initialBoard c6moves]) =
      [(board_to_8x8x12 (boardMatrix initialBoard), 52)] := by
  have h3 : find_moved_piece (boardMatrix initialBoard)
      (boardMatrix (makeMove (makeMove initialBoard (12, 28)) (52, 36)))
      = some (52, 1) := by decide
  refine ⟨rfl, rfl, h3, ?_⟩
  show ((([initialBoard,
      makeMove (makeMove initialBoard (12, 28)) (52, 36)].map
        boardMatrix) :: []).map examplesOfGame).flatten = _
  rw [List.map_cons, List.map_nil, List.map_cons, List.map_cons,
    List.map_nil]
  show (examplesOfGame [boardMatrix initialBoard,
      boardMatrix (makeMove (makeMove initialBoard (12, 28)) (52, 36))]
    :: []).flatten = _
  rw [examplesOfGame, h3]
  rfl
